import Mathlib

/-!
# Verification of the xpr-fix expression parsers

Shallow embedding of the parsing core of the xpr-fix repository:

* `src/xpr-fix.scm` — tokenizer `lex-line` and the parser variants
  `parse-prefix`, `parse-postfix`, `parse-infix-rnn`, `parse-infix-rpn`
  and `parse-infix-lpp` (the last one parses the reversed token stream
  and mirrors the resulting tree with `tree-invert`).
* `src/c_infix/` (with the shared header `lexer.h`) — the C lexer
  `lex_string`, the recursive-descent parser of `infix_recur_desc.c`
  and the precedence-climbing parser of `infix_prec_climb.c`.

The Scheme parsers drive a global single-lookahead cursor
(`init!`/`consume!`/`next`/`done?`); here the cursor is the explicit
list of remaining tokens, threaded through each function.  Calls to the
Scheme `error` procedure (and the C `error` function, which exits the
process) are embedded as `Except.error` with an error-kind enumeration
that mirrors the distinct error messages of the source.  Recursive
parsing functions take an explicit fuel argument; running out of fuel is
a distinguished error, and the top-level wrappers supply fuel that is
large enough for every input.
-/

namespace XprFix

/-! ## Scheme side: trees, tokens, errors -/

/-- ASTs built by `xpr-fix.scm`: a tree is either a number (the result
of `parse-num!`) or a three-element list `(op left right)` where `op`
is an operator symbol. -/
inductive Tree where
  | num (v : Nat)
  | op (c : Char) (l r : Tree)
  deriving DecidableEq, Repr

/-- `tree-invert` from `xpr-fix.scm`: a non-list (number leaf) is kept,
a list `(op l r)` becomes `(op (tree-invert r) (tree-invert l))`. -/
def Tree.invert : Tree → Tree
  | .num v => .num v
  | .op c l r => .op c (Tree.invert r) (Tree.invert l)

/-- Leaf count of a tree: the number of `Value` (number) nodes. -/
def Tree.leaves : Tree → Nat
  | .num _ => 1
  | .op _ l r => l.leaves + r.leaves

/-- Tokens of `xpr-fix.scm`: type `n` (number, value = the number),
`o` (operator, value = its symbol, one of `+ - * /`), `lp`, `rp`
(parentheses, whose values are never compared against operator symbols
by the parsers, so they are not recorded). -/
inductive STok where
  | n (v : Nat)
  | o (c : Char)
  | lp
  | rp
  deriving DecidableEq, Repr

/-- Number of `n` (Number) tokens in a token list. -/
def countN : List STok → Nat
  | [] => 0
  | .n _ :: r => countN r + 1
  | _ :: r => countN r

/-- Error kinds of the Scheme implementation, one per distinct `error`
call site: `lexInvalidToken` is `(error 'lex-line "invalid token" ...)`;
`missingTokens`, `extraTokens`, `invalidToken`, `missingArguments`,
`missingOpenBracket` ("missing open bracket" in `F!`) and
`invalidOpenBracket` ("invalid open bracket" in `F!`) correspond to the
parser error messages; `accessorCrash` models the CHICKEN runtime type
error raised when a record accessor such as `tok-t` is applied to the
`#f` sentinel; `outOfFuel` is an artifact of the fueled embedding and
is never produced under sufficient fuel. -/
inductive PErr where
  | lexInvalidToken
  | missingTokens
  | extraTokens
  | invalidToken
  | missingArguments
  | missingOpenBracket
  | invalidOpenBracket
  | accessorCrash
  | outOfFuel
  deriving DecidableEq, Repr

/-! ## Scheme side: lexer

`lex-line` calls `(string-tokenize line " \t\n" "+-*/()")`, which splits
the line at the whitespace characters (dropping them) and makes each of
the characters `+ - * / ( )` a single-character word; every other
maximal run of characters is one word.  Each word then goes through
`lex-num`, `lex-op`, `lex-paren` in that order, and a word accepted by
none of them raises the `lex-line` "invalid token" error. -/

/-- Delimiter characters of the `string-tokenize` call: `" \t\n"`. -/
def isDelim (c : Char) : Bool := c = ' ' ∨ c = '\t' ∨ c = '\n'

/-- Single-character-token characters of the `string-tokenize` call:
`"+-*/()"`. -/
def isSingle (c : Char) : Bool :=
  c = '+' ∨ c = '-' ∨ c = '*' ∨ c = '/' ∨ c = '(' ∨ c = ')'

/-- `string-tokenize` with the fixed delimiter and single sets, over a
character list, carrying the (reversed) current word as accumulator. -/
def splitWords : List Char → List Char → List (List Char)
  | [], acc => if acc.isEmpty then [] else [acc.reverse]
  | c :: cs, acc =>
    if isDelim c then
      if acc.isEmpty then splitWords cs []
      else acc.reverse :: splitWords cs []
    else if isSingle c then
      if acc.isEmpty then [c] :: splitWords cs []
      else acc.reverse :: [c] :: splitWords cs []
    else splitWords cs (c :: acc)

/-- Numeric value of a digit word, most significant digit first. -/
def digitsToNat (cs : List Char) : Nat :=
  cs.foldl (fun a c => 10 * a + (c.toNat - 48)) 0

/-- Model of CHICKEN `string->number` restricted to the nonnegative
decimal integer literals generated by the grammars in scope (`N ->
[0-9]+`): a nonempty all-digit word converts, anything else does not. -/
def stringToNumber (cs : List Char) : Option Nat :=
  if ¬cs.isEmpty ∧ cs.all Char.isDigit then some (digitsToNat cs) else none

/-- `lex-num`: make an `n` token when `string->number` succeeds. -/
def lexNum (cs : List Char) : Option STok :=
  (stringToNumber cs).map STok.n

/-- `lex-op`: a single-character word whose character is one of
`+ - * /` becomes an `o` token holding that symbol. -/
def lexOp : List Char → Option STok
  | [c] => if c = '+' ∨ c = '-' ∨ c = '*' ∨ c = '/' then some (.o c) else none
  | _ => none

/-- `lex-paren`: a single `(` or `)` becomes an `lp` or `rp` token. -/
def lexParen : List Char → Option STok
  | [c] => if c = '(' then some .lp else if c = ')' then some .rp else none
  | _ => none

/-- One word of `lex-words`: try `lex-num`, then `lex-op`, then
`lex-paren`; a word accepted by none raises the lexer error. -/
def lexWord (cs : List Char) : Except PErr STok :=
  match lexNum cs with
  | some t => .ok t
  | none =>
    match lexOp cs with
    | some t => .ok t
    | none =>
      match lexParen cs with
      | some t => .ok t
      | none => .error .lexInvalidToken

/-- Lex every word of the line, left to right. -/
def lexWords : List (List Char) → Except PErr (List STok)
  | [] => .ok []
  | w :: ws =>
    match lexWord w with
    | .error e => .error e
    | .ok t =>
      match lexWords ws with
      | .error e => .error e
      | .ok ts => .ok (t :: ts)

/-- `lex-line`: split the line into words and lex each word. -/
def lexLine (line : String) : Except PErr (List STok) :=
  lexWords (splitWords line.toList [])

/-! ## Scheme side: prefix parser

`parse-prefix` parses the grammar `E -> N | O E E` by LL(1) recursive
descent, then requires the stream to be exhausted (`done?`), raising
"too many tokens" otherwise. -/

/-- `parse-expr!` inside `parse-prefix`: on end of stream, "missing
tokens"; on a number, consume it; on an operator, consume it and parse
two sub-expressions; otherwise "invalid token".  Returns the tree and
the remaining tokens. -/
def preE : Nat → List STok → Except PErr (Tree × List STok)
  | 0, _ => .error .outOfFuel
  | _ + 1, [] => .error .missingTokens
  | _ + 1, .n v :: r => .ok (.num v, r)
  | fuel + 1, .o c :: r =>
    match preE fuel r with
    | .error e => .error e
    | .ok (l, r1) =>
      match preE fuel r1 with
      | .error e => .error e
      | .ok (rt, r2) => .ok (.op c l rt, r2)
  | _ + 1, _ => .error .invalidToken

/-- `parse-prefix` over an already-lexed token list. -/
def parsePre (toks : List STok) : Except PErr Tree :=
  match preE (toks.length + 1) toks with
  | .error e => .error e
  | .ok (t, rest) => if rest.isEmpty then .ok t else .error .extraTokens

/-- `parse-prefix` on a line: lex, then parse. -/
def parsePreLine (line : String) : Except PErr Tree :=
  match lexLine line with
  | .error e => .error e
  | .ok toks => parsePre toks

/-! ## Scheme side: postfix parser

`parse-postfix` runs a stack automaton for `E -> N | E E O`: numbers
push `Value` nodes; an operator pops two nodes (erroring with "missing
arguments" on underflow) and pushes `(op second-from-top top)`; after
the input is exhausted the stack must hold exactly one node ("missing
tokens" if empty, "too many tokens" if more than one). -/

/-- The `parse-expr!` loop of `parse-postfix` together with the final
stack check of `parse-postfix` (reached when the tokens run out). -/
def postRun : List STok → List Tree → Except PErr Tree
  | [], stk =>
    match stk with
    | [] => .error .missingTokens
    | [t] => .ok t
    | _ => .error .extraTokens
  | .n v :: r, stk => postRun r (.num v :: stk)
  | .o c :: r, stk =>
    match stk with
    | b :: a :: rest => postRun r (.op c a b :: rest)
    | _ => .error .missingArguments
  | _ :: _, _ => .error .invalidToken

/-- `parse-postfix` over an already-lexed token list. -/
def parsePost (toks : List STok) : Except PErr Tree :=
  postRun toks []

/-- `parse-postfix` on a line: lex, then parse. -/
def parsePostLine (line : String) : Except PErr Tree :=
  match lexLine line with
  | .error e => .error e
  | .ok toks => parsePost toks

/-! ## Scheme side: infix, right-associative, no precedence

`parse-infix-rnn` parses `E -> N R`, `R -> e | O E` by LL(1) recursive
descent; `R!` returns `#f` (here `none`) at end of stream, so the
`E!` result is either the bare number or `(op number E-tree)`. -/

mutual

/-- `E!` of `parse-infix-rnn`. -/
def rnnE : Nat → List STok → Except PErr (Tree × List STok)
  | 0, _ => .error .outOfFuel
  | _ + 1, [] => .error .missingTokens
  | fuel + 1, .n v :: r =>
    match rnnR fuel r with
    | .error e => .error e
    | .ok (none, r1) => .ok (.num v, r1)
    | .ok (some (c, t), r1) => .ok (.op c (.num v) t, r1)
  | _ + 1, _ => .error .invalidToken

/-- `R!` of `parse-infix-rnn`: `#f` at end of stream, `(op E-tree)`
on an operator, "invalid token" otherwise. -/
def rnnR : Nat → List STok → Except PErr (Option (Char × Tree) × List STok)
  | 0, _ => .error .outOfFuel
  | _ + 1, [] => .ok (none, [])
  | fuel + 1, .o c :: r =>
    match rnnE fuel r with
    | .error e => .error e
    | .ok (t, r1) => .ok (some (c, t), r1)
  | _ + 1, _ => .error .invalidToken

end

/-- `parse-infix-rnn` over an already-lexed token list. -/
def parseRnn (toks : List STok) : Except PErr Tree :=
  match rnnE (2 * toks.length + 2) toks with
  | .error e => .error e
  | .ok (t, rest) => if rest.isEmpty then .ok t else .error .extraTokens

/-- `parse-infix-rnn` on a line: lex, then parse. -/
def parseRnnLine (line : String) : Except PErr Tree :=
  match lexLine line with
  | .error e => .error e
  | .ok toks => parseRnn toks

/-! ## Scheme side: infix, right-associative, with precedence

`parse-infix-rpn` parses `EXPR -> TERM | TERM [+,-] EXPR`,
`TERM -> FACT | FACT [*,/] TERM`, `FACT -> NUM`.  After a `TERM`,
`EXPR!` recurses into a full `EXPR` when the lookahead is `+` or `-`
and raises "invalid token" on any other remaining token; after a
`FACT`, `TERM!` recurses into a full `TERM` when the lookahead is `*`
or `/` and otherwise simply returns the factor. -/

/-- `FACT!` of `parse-infix-rpn`: a number, or "missing tokens" /
"invalid token". -/
def rpnFACT : List STok → Except PErr (Tree × List STok)
  | [] => .error .missingTokens
  | .n v :: r => .ok (.num v, r)
  | _ => .error .invalidToken

mutual

/-- `EXPR!` of `parse-infix-rpn`. -/
def rpnEXPR : Nat → List STok → Except PErr (Tree × List STok)
  | 0, _ => .error .outOfFuel
  | _ + 1, [] => .error .missingTokens
  | fuel + 1, toks =>
    match rpnTERM fuel toks with
    | .error e => .error e
    | .ok (t, r1) =>
      match r1 with
      | [] => .ok (t, [])
      | .o c :: r2 =>
        if c = '+' ∨ c = '-' then
          match rpnEXPR fuel r2 with
          | .error e => .error e
          | .ok (e, r3) => .ok (.op c t e, r3)
        else .error .invalidToken
      | _ => .error .invalidToken

/-- `TERM!` of `parse-infix-rpn`. -/
def rpnTERM : Nat → List STok → Except PErr (Tree × List STok)
  | 0, _ => .error .outOfFuel
  | _ + 1, [] => .error .missingTokens
  | fuel + 1, toks =>
    match rpnFACT toks with
    | .error e => .error e
    | .ok (f, r1) =>
      match r1 with
      | [] => .ok (f, [])
      | .o c :: r2 =>
        if c = '*' ∨ c = '/' then
          match rpnTERM fuel r2 with
          | .error e => .error e
          | .ok (t, r3) => .ok (.op c f t, r3)
        else .ok (f, r1)
      | _ => .ok (f, r1)

end

/-- `parse-infix-rpn` over an already-lexed token list. -/
def parseRpn (toks : List STok) : Except PErr Tree :=
  match rpnEXPR (2 * toks.length + 2) toks with
  | .error e => .error e
  | .ok (t, rest) => if rest.isEmpty then .ok t else .error .extraTokens

/-- `parse-infix-rpn` on a line: lex, then parse. -/
def parseRpnLine (line : String) : Except PErr Tree :=
  match lexLine line with
  | .error e => .error e
  | .ok toks => parseRpn toks

/-! ## Scheme side: infix, left-associative, precedence, parentheses

`parse-infix-lpp` parses the grammar

    E  -> EL T,  EL -> EL T [+,-] | e
    T  -> TL F,  TL -> TL F [*,/] | e
    F  -> ( E ) | NUM

over the **reversed** token list, and applies `tree-invert` to the
result.  Because the stream is reversed, `F!` consumes an `rp` where
the written expression has an open paren and then expects an `lp`
("missing open bracket" when the next token is not `lp`).  A written
`lp` reached directly by `F!` is "invalid open bracket".  `EL!`/`TL!`
return `#f` (here `none`) when the lookahead is not one of their
operators. -/

mutual

/-- `E!` of `parse-infix-lpp`. -/
def lppE : Nat → List STok → Except PErr (Tree × List STok)
  | 0, _ => .error .outOfFuel
  | _ + 1, [] => .error .missingTokens
  | fuel + 1, toks =>
    match lppT fuel toks with
    | .error e => .error e
    | .ok (t, r1) =>
      match lppEL fuel r1 with
      | .error e => .error e
      | .ok (none, r2) => .ok (t, r2)
      | .ok (some (c, t2), r2) => .ok (.op c t t2, r2)

/-- `EL!` of `parse-infix-lpp`: on `+`/`-`, consume the operator,
parse a `T` and a further `EL`, folding `(op2 t el-arg)` under the
consumed operator; otherwise `none` without consuming. -/
def lppEL : Nat → List STok → Except PErr (Option (Char × Tree) × List STok)
  | 0, _ => .error .outOfFuel
  | _ + 1, [] => .ok (none, [])
  | fuel + 1, .o c :: r =>
    if c = '+' ∨ c = '-' then
      match lppT fuel r with
      | .error e => .error e
      | .ok (t, r1) =>
        match lppEL fuel r1 with
        | .error e => .error e
        | .ok (none, r2) => .ok (some (c, t), r2)
        | .ok (some (c2, t2), r2) => .ok (some (c, .op c2 t t2), r2)
    else .ok (none, .o c :: r)
  | _ + 1, toks => .ok (none, toks)

/-- `T!` of `parse-infix-lpp`. -/
def lppT : Nat → List STok → Except PErr (Tree × List STok)
  | 0, _ => .error .outOfFuel
  | _ + 1, [] => .error .missingTokens
  | fuel + 1, toks =>
    match lppF fuel toks with
    | .error e => .error e
    | .ok (f, r1) =>
      match lppTL fuel r1 with
      | .error e => .error e
      | .ok (none, r2) => .ok (f, r2)
      | .ok (some (c, t2), r2) => .ok (.op c f t2, r2)

/-- `TL!` of `parse-infix-lpp`, the `*`/`/` analogue of `EL!`. -/
def lppTL : Nat → List STok → Except PErr (Option (Char × Tree) × List STok)
  | 0, _ => .error .outOfFuel
  | _ + 1, [] => .ok (none, [])
  | fuel + 1, .o c :: r =>
    if c = '*' ∨ c = '/' then
      match lppF fuel r with
      | .error e => .error e
      | .ok (f, r1) =>
        match lppTL fuel r1 with
        | .error e => .error e
        | .ok (none, r2) => .ok (some (c, f), r2)
        | .ok (some (c2, t2), r2) => .ok (some (c, .op c2 f t2), r2)
    else .ok (none, .o c :: r)
  | _ + 1, toks => .ok (none, toks)

/-- `F!` of `parse-infix-lpp`.  On the reversed stream: a number; or an
`rp` opening a parenthesized sub-expression that must be closed by an
`lp` — when the sub-expression ends at end of stream the source calls
`match-type?` on the `#f` sentinel, which crashes the record accessor
(`accessorCrash`); a bare `lp` is "invalid open bracket". -/
def lppF : Nat → List STok → Except PErr (Tree × List STok)
  | 0, _ => .error .outOfFuel
  | _ + 1, [] => .error .missingTokens
  | _ + 1, .n v :: r => .ok (.num v, r)
  | fuel + 1, .rp :: r =>
    match lppE fuel r with
    | .error e => .error e
    | .ok (e, r1) =>
      match r1 with
      | .lp :: r2 => .ok (e, r2)
      | _ :: _ => .error .missingOpenBracket
      | [] => .error .accessorCrash
  | _ + 1, .lp :: _ => .error .invalidOpenBracket
  | _ + 1, _ => .error .invalidToken

end

/-- `parse-infix-lpp` over an already-lexed token list: reverse the
tokens, parse an `E`, require exhaustion ("too many tokens"
otherwise), and mirror the tree with `tree-invert`. -/
def parseLpp (toks : List STok) : Except PErr Tree :=
  match lppE (3 * toks.length + 3) toks.reverse with
  | .error e => .error e
  | .ok (t, rest) => if rest.isEmpty then .ok t.invert else .error .extraTokens

/-- `parse-infix-lpp` on a line: lex, then parse. -/
def parseLppLine (line : String) : Except PErr Tree :=
  match lexLine line with
  | .error e => .error e
  | .ok toks => parseLpp toks

/-! ## C side: tokens and lexer (`lexer.h`)

The C lexer `lex_string` scans the string left to right: inside the
outer loop it first skips whitespace, then either emits a
single-character token for a character of `op_chars` (`"=+-*/^()"`) or
emits a `TOK_VAL` token holding the maximal run of characters that are
neither whitespace nor in `op_chars`.  It never validates value words
numerically and never fails — except that when the string ends in
whitespace, the `strchr(op_chars, *str)` test matches the terminating
NUL and a token with an *uninitialized* type field is appended; the
embedding returns `none` for inputs reaching that indeterminate state.
`next()` past the end of the token array yields the `TOK_END`
sentinel (whose `word` is the null pointer, never dereferenced by the
parsers), and `consume()` is a no-op at the end. -/

/-- `TokenType` of `lexer.h`. -/
inductive CTokType where
  | val
  | equals
  | plus
  | minus
  | times
  | divide
  | exponent
  | parenL
  | parenR
  | tEnd
  deriving DecidableEq, Repr

/-- `Token` of `lexer.h`: a type and the lexed word. -/
structure CTok where
  type : CTokType
  word : String
  deriving DecidableEq, Repr

/-- `isspace` of C: the six standard whitespace characters. -/
def cIsSpace (c : Char) : Bool :=
  c = ' ' ∨ c = '\t' ∨ c = '\n' ∨ c = '\x0b' ∨ c = '\x0c' ∨ c = '\r'

/-- `op_chars` of `lexer.h`: `"=+-*/^()"`. -/
def op_chars : List Char := ['=', '+', '-', '*', '/', '^', '(', ')']

/-- The `switch` of `lex_string` mapping an operator character to its
token type. -/
def opCharType (c : Char) : CTokType :=
  if c = '=' then .equals
  else if c = '+' then .plus
  else if c = '-' then .minus
  else if c = '*' then .times
  else if c = '/' then .divide
  else if c = '^' then .exponent
  else if c = '(' then .parenL
  else .parenR

/-- A character that continues a `TOK_VAL` word: not NUL (here: list
not yet empty), not whitespace, not in `op_chars`. -/
def cIsWordChar (c : Char) : Bool := ¬cIsSpace c ∧ c ∉ op_chars

/-- The outer `while (*str != '\0')` loop of `lex_string`.  `none`
models the indeterminate token appended when whitespace skipping runs
into the terminating NUL (uninitialized `type`). -/
def cLexRun : Nat → List Char → Option (List CTok)
  | 0, _ => none
  | _ + 1, [] => some []
  | fuel + 1, c :: cs =>
    match (c :: cs).dropWhile cIsSpace with
    | [] => none
    | c1 :: rest =>
      if c1 ∈ op_chars then
        (cLexRun fuel rest).map
          fun ts => ⟨opCharType c1, String.mk [c1]⟩ :: ts
      else
        (cLexRun fuel (rest.dropWhile cIsWordChar)).map
          fun ts =>
            ⟨.val, String.mk (c1 :: rest.takeWhile cIsWordChar)⟩ :: ts

/-- `lex_string` of `lexer.h` over a string. -/
def cLexString (s : String) : Option (List CTok) :=
  cLexRun (s.toList.length + 1) s.toList

/-- The `TOK_END` sentinel returned by `next()` past the end; its
`word` is the null pointer in C, modelled as the empty string (the
parsers only read `word` through `tokSym` after checking the type). -/
def cEndTok : CTok := ⟨.tEnd, ""⟩

/-- `next()`: the current token, or the end sentinel. -/
def cNext : List CTok → CTok
  | [] => cEndTok
  | t :: _ => t

/-- `consume()`: drop the current token; a no-op at the end. -/
def cConsume : List CTok → List CTok
  | [] => []
  | _ :: r => r

/-- Error kinds of the C parsers, one per `error` call reachable from
them: `invalidToken` for the "invalid token" / "unexpected token"
branches of `P`/`fact`, `expectFail` for a failed `expect`,
`invalidBinaryOp` and `invalidUnaryOp` for the `get_*_prec` failure
branches (unreachable behind the `is_*_op` guards), `lexIndet` for an
input whose `lex_string` run reaches the uninitialized-token state,
and `outOfFuel` as the fuel artifact. -/
inductive CErr where
  | invalidToken
  | expectFail
  | invalidBinaryOp
  | invalidUnaryOp
  | lexIndet
  | outOfFuel
  deriving DecidableEq, Repr

/-- `expect(type)`: consume a token of the given type or fail. -/
def cExpect (ty : CTokType) (toks : List CTok) : Except CErr (List CTok) :=
  if (cNext toks).type = ty then .ok (cConsume toks) else .error .expectFail

/-! ## C side: precedence climbing (`infix_prec_climb.c`) -/

/-- `Assoc` of `infix_prec_climb.c`. -/
inductive Assoc where
  | anull
  | aleft
  | aright
  deriving DecidableEq, Repr

/-- `PrecItem` of `infix_prec_climb.c`. -/
structure PrecItem where
  sym : Char
  prec : Nat
  assoc : Assoc
  deriving DecidableEq, Repr

/-- `unary_prec_arr`. -/
def unary_prec_arr : List PrecItem := [⟨'-', 4, .anull⟩]

/-- `binary_prec_arr`. -/
def binary_prec_arr : List PrecItem :=
  [⟨'=', 0, .aleft⟩, ⟨'+', 1, .aleft⟩, ⟨'-', 1, .aleft⟩,
   ⟨'*', 2, .aleft⟩, ⟨'/', 2, .aleft⟩, ⟨'^', 3, .aright⟩]

/-- `prec_arr_find`: first table entry for a symbol, if any. -/
def prec_arr_find (arr : List PrecItem) (c : Char) : Option PrecItem :=
  arr.find? fun it => it.sym = c

/-- `*tok.word`: the first character of a token's word (the first
character of the empty string in C is the terminating NUL). -/
def tokSym (t : CTok) : Char := t.word.toList.headD (Char.ofNat 0)

/-- `is_unary_op`: false for the end token, else a table lookup on the
word's first character. -/
def is_unary_op (t : CTok) : Bool :=
  if t.type = .tEnd then false
  else (prec_arr_find unary_prec_arr (tokSym t)).isSome

/-- `is_binary_op`. -/
def is_binary_op (t : CTok) : Bool :=
  if t.type = .tEnd then false
  else (prec_arr_find binary_prec_arr (tokSym t)).isSome

/-- `AST` of `infix_prec_climb.c`: a value leaf, a unary node, or a
binary node, each carrying its token. -/
inductive CAst where
  | value (tok : CTok)
  | unary (tok : CTok) (child : CAst)
  | binary (tok : CTok) (l r : CAst)
  deriving DecidableEq, Repr

/-- `AST_print_` of `infix_prec_climb.c`: a leaf prints as a space and
its word; a unary or binary node prints as a space, `(`, its word, its
printed children, `)`. -/
def cAstPrint : CAst → String
  | .value t => " " ++ t.word
  | .unary t c => " (" ++ t.word ++ cAstPrint c ++ ")"
  | .binary t l r => " (" ++ t.word ++ cAstPrint l ++ cAstPrint r ++ ")"

mutual

/-- `P` of `infix_prec_climb.c`: a unary operator applied to a climb at
the operator's own precedence, a parenthesized `expr()` (= `E(0)`)
closed by an expected `TOK_PAREN_R`, or a value; anything else is
"invalid token". -/
def climbP : Nat → List CTok → Except CErr (CAst × List CTok)
  | 0, _ => .error .outOfFuel
  | fuel + 1, toks =>
    let tok := cNext toks
    if is_unary_op tok then
      match prec_arr_find unary_prec_arr (tokSym tok) with
      | none => .error .invalidUnaryOp
      | some item =>
        match climbE fuel item.prec (cConsume toks) with
        | .error e => .error e
        | .ok (child, r) => .ok (.unary tok child, r)
    else if tok.type = .parenL then
      match climbE fuel 0 (cConsume toks) with
      | .error e => .error e
      | .ok (ast, r) =>
        match cExpect .parenR r with
        | .error e => .error e
        | .ok r1 => .ok (ast, r1)
    else if tok.type = .val then
      .ok (.value tok, cConsume toks)
    else .error .invalidToken

/-- `E(min_prec)` of `infix_prec_climb.c`: parse a `P`, then run the
binary-operator loop. -/
def climbE : Nat → Nat → List CTok → Except CErr (CAst × List CTok)
  | 0, _, _ => .error .outOfFuel
  | fuel + 1, min_prec, toks =>
    match climbP fuel toks with
    | .error e => .error e
    | .ok (left, r) => climbLoop fuel min_prec left r

/-- The `while` loop of `E`: while the lookahead is a binary operator
of precedence `≥ min_prec`, consume it and climb the right operand at
`prec + 1` (left-associative operator) or `prec` (right-associative),
left-folding the binary nodes. -/
def climbLoop : Nat → Nat → CAst → List CTok → Except CErr (CAst × List CTok)
  | 0, _, _, _ => .error .outOfFuel
  | fuel + 1, min_prec, left, toks =>
    let tok := cNext toks
    if is_binary_op tok then
      match prec_arr_find binary_prec_arr (tokSym tok) with
      | none => .error .invalidBinaryOp
      | some item =>
        if item.prec ≥ min_prec then
          match climbE fuel
              (if item.assoc = .aleft then item.prec + 1 else item.prec)
              (cConsume toks) with
          | .error e => .error e
          | .ok (right, r1) => climbLoop fuel min_prec (.binary tok left right) r1
        else .ok (left, toks)
    else .ok (left, toks)

end

/-- `parse` of `infix_prec_climb.c` over a token list: `expr()`
(= `E(0)`) followed by `expect(TOK_END)`. -/
def climbParse (toks : List CTok) : Except CErr CAst :=
  match climbE (3 * toks.length + 3) 0 toks with
  | .error e => .error e
  | .ok (ast, r) =>
    match cExpect .tEnd r with
    | .error e => .error e
    | .ok _ => .ok ast

/-- `parse` of `infix_prec_climb.c` on a string: `lex_string`, then
parse. -/
def climbParseLine (s : String) : Except CErr CAst :=
  match cLexString s with
  | none => .error .lexIndet
  | some toks => climbParse toks

/-! ## C side: recursive descent (`infix_recur_desc.c`)

The `AST` struct of this file has nullable `left`/`right` children with
the asserted invariant that they are both null (a leaf) or both
non-null (a binary node). -/

/-- `AST` of `infix_recur_desc.c` under its asserted invariant. -/
inductive RDAst where
  | leaf (tok : CTok)
  | node (tok : CTok) (l r : RDAst)
  deriving DecidableEq, Repr

/-- `AST_print` of `infix_recur_desc.c`. -/
def rdPrint : RDAst → String
  | .leaf t => " " ++ t.word
  | .node t l r => " (" ++ t.word ++ rdPrint l ++ rdPrint r ++ ")"

mutual

/-- `fact` of `infix_recur_desc.c`: a value, or a parenthesized
`expr()` closed by an expected `TOK_PAREN_R`; anything else is the
"unexpected token" error. -/
def rdFact : Nat → List CTok → Except CErr (RDAst × List CTok)
  | 0, _ => .error .outOfFuel
  | fuel + 1, toks =>
    let tok := cNext toks
    if tok.type = .val then
      .ok (.leaf tok, cConsume toks)
    else if tok.type = .parenL then
      match rdExpr fuel (cConsume toks) with
      | .error e => .error e
      | .ok (ast, r) =>
        match cExpect .parenR r with
        | .error e => .error e
        | .ok r1 => .ok (ast, r1)
    else .error .invalidToken

/-- `term` of `infix_recur_desc.c`: a `fact`, then the `*`/`/` loop in
which the right operand is a full `term`. -/
def rdTerm : Nat → List CTok → Except CErr (RDAst × List CTok)
  | 0, _ => .error .outOfFuel
  | fuel + 1, toks =>
    match rdFact fuel toks with
    | .error e => .error e
    | .ok (left, r) => rdTermLoop fuel left r

/-- The `while` loop of `term`. -/
def rdTermLoop : Nat → RDAst → List CTok → Except CErr (RDAst × List CTok)
  | 0, _, _ => .error .outOfFuel
  | fuel + 1, left, toks =>
    let tok := cNext toks
    if tok.type = .times ∨ tok.type = .divide then
      match rdTerm fuel (cConsume toks) with
      | .error e => .error e
      | .ok (right, r1) => rdTermLoop fuel (.node tok left right) r1
    else .ok (left, toks)

/-- `expr` of `infix_recur_desc.c`: a `term`, then the `+`/`-` loop in
which the right operand is a full `expr`. -/
def rdExpr : Nat → List CTok → Except CErr (RDAst × List CTok)
  | 0, _ => .error .outOfFuel
  | fuel + 1, toks =>
    match rdTerm fuel toks with
    | .error e => .error e
    | .ok (left, r) => rdExprLoop fuel left r

/-- The `while` loop of `expr`. -/
def rdExprLoop : Nat → RDAst → List CTok → Except CErr (RDAst × List CTok)
  | 0, _, _ => .error .outOfFuel
  | fuel + 1, left, toks =>
    let tok := cNext toks
    if tok.type = .plus ∨ tok.type = .minus then
      match rdExpr fuel (cConsume toks) with
      | .error e => .error e
      | .ok (right, r1) => rdExprLoop fuel (.node tok left right) r1
    else .ok (left, toks)

end

/-- `parse` of `infix_recur_desc.c` over a token list. -/
def rdParse (toks : List CTok) : Except CErr RDAst :=
  match rdExpr (3 * toks.length + 3) toks with
  | .error e => .error e
  | .ok (ast, r) =>
    match cExpect .tEnd r with
    | .error e => .error e
    | .ok _ => .ok ast

/-- `parse` of `infix_recur_desc.c` on a string. -/
def rdParseLine (s : String) : Except CErr RDAst :=
  match cLexString s with
  | none => .error .lexIndet
  | some toks => rdParse toks

/-- Reading a binary-only C AST back as a Scheme-side tree: numeric
leaf words become `Tree.num`, binary nodes become `Tree.op` on the
operator word's character.  Used to compare the two parser families. -/
def castToTree : CAst → Option Tree
  | .value t => (stringToNumber t.word.toList).map Tree.num
  | .unary _ _ => none
  | .binary t l r =>
    match t.word.toList with
    | [c] =>
      match castToTree l, castToTree r with
      | some l1, some r1 => some (.op c l1 r1)
      | _, _ => none
    | _ => none

/-! ## Auxiliary notions used by the properties -/

/-- Strictly right-associated tree: every operation node's left child
is a value leaf. -/
def RightChain : Tree → Bool
  | .num _ => true
  | .op _ (.num _) r => RightChain r
  | .op _ _ _ => false

/-- Leaf count carried by an optional `EL!`/`TL!`/`R!` result. -/
def optLeaves : Option (Char × Tree) → Nat
  | none => 0
  | some (_, t) => t.leaves

/-- Total leaf count of a postfix operand stack. -/
def stackLeaves (stk : List Tree) : Nat :=
  (stk.map Tree.leaves).sum

/-- The tree `((1*2)+(3*(4+5)))` with `+`/`*` chains grouped
left-to-right, on the Scheme side. -/
def stdTree : Tree :=
  .op '+' (.op '*' (.num 1) (.num 2))
    (.op '*' (.num 3) (.op '+' (.num 4) (.num 5)))

/-- The same tree as produced by the precedence-climbing parser. -/
def stdCAst : CAst :=
  .binary ⟨.plus, "+"⟩
    (.binary ⟨.times, "*"⟩ (.value ⟨.val, "1"⟩) (.value ⟨.val, "2"⟩))
    (.binary ⟨.times, "*"⟩ (.value ⟨.val, "3"⟩)
      (.binary ⟨.plus, "+"⟩ (.value ⟨.val, "4"⟩) (.value ⟨.val, "5"⟩)))

deriving instance DecidableEq for Except

/-! ## Leaf-counting lemmas -/

theorem countN_append (a b : List STok) :
    countN (a ++ b) = countN a + countN b := by
  induction a with
  | nil => simp [countN]
  | cons x xs ih => cases x <;> (simp [countN, ih]; try omega)

theorem countN_reverse (l : List STok) : countN l.reverse = countN l := by
  induction l with
  | nil => rfl
  | cons x xs ih =>
    cases x <;> simp [countN, List.reverse_cons, countN_append, ih]

theorem Tree.invert_leaves (t : Tree) : t.invert.leaves = t.leaves := by
  induction t with
  | num v => rfl
  | op c l r ihl ihr => simp [Tree.invert, Tree.leaves, ihl, ihr]; omega

/-- Partial parses of the prefix grammar account for every number
token: the leaves of the parsed tree plus the number tokens still
unconsumed equal the number tokens of the input. -/
theorem preE_leaves : ∀ fuel toks t rest,
    preE fuel toks = .ok (t, rest) → t.leaves + countN rest = countN toks := by
  intro fuel
  induction fuel with
  | zero => intro toks t rest h; simp [preE] at h
  | succ f ih =>
    intro toks t rest h
    match toks with
    | [] => simp [preE] at h
    | .n v :: r =>
      simp [preE] at h
      obtain ⟨rfl, rfl⟩ := h
      simp [Tree.leaves, countN]
      omega
    | .o c :: r =>
      rw [preE] at h
      split at h
      · exact absurd h (by simp)
      · rename_i l r1 h1
        split at h
        · exact absurd h (by simp)
        · rename_i rt r2 h2
          simp at h
          obtain ⟨rfl, rfl⟩ := h
          have e1 := ih r l r1 h1
          have e2 := ih r1 rt r2 h2
          simp [Tree.leaves, countN]
          omega
    | .lp :: r => simp [preE] at h
    | .rp :: r => simp [preE] at h

/-- The postfix stack automaton accounts for every number token: a
successful run's tree has as many leaves as there are number tokens in
the remaining input plus leaves already on the stack. -/
theorem postRun_leaves : ∀ toks stk t,
    postRun toks stk = .ok t →
    t.leaves = countN toks + stackLeaves stk := by
  intro toks
  induction toks with
  | nil =>
    intro stk t h
    match stk with
    | [] => simp [postRun] at h
    | [x] =>
      simp [postRun] at h
      subst h
      simp [countN, stackLeaves]
    | x :: y :: rest => simp [postRun] at h
  | cons tok r ih =>
    intro stk t h
    match tok with
    | .n v =>
      rw [postRun] at h
      have := ih (Tree.num v :: stk) t h
      simp [stackLeaves, Tree.leaves, countN] at this ⊢
      omega
    | .o c =>
      match stk with
      | [] => simp [postRun] at h
      | [x] => simp [postRun] at h
      | b :: a :: rest =>
        rw [postRun] at h
        have := ih (Tree.op c a b :: rest) t h
        simp [stackLeaves, Tree.leaves, countN] at this ⊢
        omega
    | .lp => simp [postRun] at h
    | .rp => simp [postRun] at h

/-- Every partial parse of the `parse-infix-lpp` grammar accounts for
the number tokens it consumed, across all five parsing functions. -/
theorem lpp_leaves : ∀ fuel,
    (∀ toks t rest, lppE fuel toks = .ok (t, rest) →
      t.leaves + countN rest = countN toks) ∧
    (∀ toks o rest, lppEL fuel toks = .ok (o, rest) →
      optLeaves o + countN rest = countN toks) ∧
    (∀ toks t rest, lppT fuel toks = .ok (t, rest) →
      t.leaves + countN rest = countN toks) ∧
    (∀ toks o rest, lppTL fuel toks = .ok (o, rest) →
      optLeaves o + countN rest = countN toks) ∧
    (∀ toks t rest, lppF fuel toks = .ok (t, rest) →
      t.leaves + countN rest = countN toks) := by
  intro fuel
  induction fuel with
  | zero =>
    refine ⟨?_, ?_, ?_, ?_, ?_⟩ <;> intro toks a rest h <;> simp [lppE, lppEL, lppT, lppTL, lppF] at h
  | succ f ih =>
    obtain ⟨ihE, ihEL, ihT, ihTL, ihF⟩ := ih
    refine ⟨?_, ?_, ?_, ?_, ?_⟩
    · -- E!
      intro toks t rest h
      match toks with
      | [] => simp [lppE] at h
      | x :: xs =>
        rw [lppE] at h
        split at h
        · exact absurd h (by simp)
        · rename_i t1 r1 h1
          split at h
          · exact absurd h (by simp)
          · rename_i r2 h2
            simp at h
            obtain ⟨rfl, rfl⟩ := h
            have e1 := ihT _ _ _ h1
            have e2 := ihEL _ _ _ h2
            simp [optLeaves] at e2
            omega
          · rename_i c2 t2 r2 h2
            simp at h
            obtain ⟨rfl, rfl⟩ := h
            have e1 := ihT _ _ _ h1
            have e2 := ihEL _ _ _ h2
            simp [optLeaves] at e2
            simp [Tree.leaves]
            omega
        all_goals simp
    · -- EL!
      intro toks o rest h
      match toks with
      | [] =>
        simp [lppEL] at h
        obtain ⟨rfl, rfl⟩ := h
        simp [optLeaves, countN]
      | .o c :: xs =>
        rw [lppEL] at h
        split at h
        · split at h
          · exact absurd h (by simp)
          · rename_i t1 r1 h1
            split at h
            · exact absurd h (by simp)
            · rename_i r2 h2
              simp at h
              obtain ⟨rfl, rfl⟩ := h
              have e1 := ihT _ _ _ h1
              have e2 := ihEL _ _ _ h2
              simp [optLeaves, countN] at e2 ⊢
              omega
            · rename_i c2 t2 r2 h2
              simp at h
              obtain ⟨rfl, rfl⟩ := h
              have e1 := ihT _ _ _ h1
              have e2 := ihEL _ _ _ h2
              simp [optLeaves, countN, Tree.leaves] at e2 ⊢
              omega
        · simp at h
          obtain ⟨rfl, rfl⟩ := h
          simp [optLeaves, countN]
      | .n v :: xs =>
        simp [lppEL] at h
        obtain ⟨rfl, rfl⟩ := h
        simp [optLeaves]
      | .lp :: xs =>
        simp [lppEL] at h
        obtain ⟨rfl, rfl⟩ := h
        simp [optLeaves]
      | .rp :: xs =>
        simp [lppEL] at h
        obtain ⟨rfl, rfl⟩ := h
        simp [optLeaves]
    · -- T!
      intro toks t rest h
      match toks with
      | [] => simp [lppT] at h
      | x :: xs =>
        rw [lppT] at h
        split at h
        · exact absurd h (by simp)
        · rename_i t1 r1 h1
          split at h
          · exact absurd h (by simp)
          · rename_i r2 h2
            simp at h
            obtain ⟨rfl, rfl⟩ := h
            have e1 := ihF _ _ _ h1
            have e2 := ihTL _ _ _ h2
            simp [optLeaves] at e2
            omega
          · rename_i c2 t2 r2 h2
            simp at h
            obtain ⟨rfl, rfl⟩ := h
            have e1 := ihF _ _ _ h1
            have e2 := ihTL _ _ _ h2
            simp [optLeaves] at e2
            simp [Tree.leaves]
            omega
        all_goals simp
    · -- TL!
      intro toks o rest h
      match toks with
      | [] =>
        simp [lppTL] at h
        obtain ⟨rfl, rfl⟩ := h
        simp [optLeaves, countN]
      | .o c :: xs =>
        rw [lppTL] at h
        split at h
        · split at h
          · exact absurd h (by simp)
          · rename_i t1 r1 h1
            split at h
            · exact absurd h (by simp)
            · rename_i r2 h2
              simp at h
              obtain ⟨rfl, rfl⟩ := h
              have e1 := ihF _ _ _ h1
              have e2 := ihTL _ _ _ h2
              simp [optLeaves, countN] at e2 ⊢
              omega
            · rename_i c2 t2 r2 h2
              simp at h
              obtain ⟨rfl, rfl⟩ := h
              have e1 := ihF _ _ _ h1
              have e2 := ihTL _ _ _ h2
              simp [optLeaves, countN, Tree.leaves] at e2 ⊢
              omega
        · simp at h
          obtain ⟨rfl, rfl⟩ := h
          simp [optLeaves, countN]
      | .n v :: xs =>
        simp [lppTL] at h
        obtain ⟨rfl, rfl⟩ := h
        simp [optLeaves]
      | .lp :: xs =>
        simp [lppTL] at h
        obtain ⟨rfl, rfl⟩ := h
        simp [optLeaves]
      | .rp :: xs =>
        simp [lppTL] at h
        obtain ⟨rfl, rfl⟩ := h
        simp [optLeaves]
    · -- F!
      intro toks t rest h
      match toks with
      | [] => simp [lppF] at h
      | .n v :: xs =>
        simp [lppF] at h
        obtain ⟨rfl, rfl⟩ := h
        simp [Tree.leaves, countN]
        omega
      | .rp :: xs =>
        rw [lppF] at h
        split at h
        · exact absurd h (by simp)
        · rename_i e1 r1 h1
          split at h
          · rename_i r2
            simp at h
            obtain ⟨rfl, rfl⟩ := h
            have := ihE _ _ _ h1
            simp [countN] at this ⊢
            omega
          · exact absurd h (by simp)
          · exact absurd h (by simp)
      | .lp :: xs => simp [lppF] at h
      | .o c :: xs => simp [lppF] at h

/-- Every tree produced by the `parse-infix-rnn` grammar functions is
strictly right-associated: `E!` builds either a bare leaf or an
operation whose left child is the leaf just parsed by `parse-num!`. -/
theorem rnn_rightChain : ∀ fuel,
    (∀ toks t rest, rnnE fuel toks = .ok (t, rest) → RightChain t = true) ∧
    (∀ toks c t rest, rnnR fuel toks = .ok (some (c, t), rest) →
      RightChain t = true) := by
  intro fuel
  induction fuel with
  | zero =>
    constructor <;> intro toks <;> intros <;> simp_all [rnnE, rnnR]
  | succ f ih =>
    obtain ⟨ihE, ihR⟩ := ih
    constructor
    · intro toks t rest h
      match toks with
      | [] => simp [rnnE] at h
      | .n v :: r =>
        rw [rnnE] at h
        split at h
        · exact absurd h (by simp)
        · rename_i r1 h1
          simp at h
          obtain ⟨rfl, rfl⟩ := h
          rfl
        · rename_i c t1 r1 h1
          simp at h
          obtain ⟨rfl, rfl⟩ := h
          simpa [RightChain] using ihR _ _ _ _ h1
      | .o c :: r => simp [rnnE] at h
      | .lp :: r => simp [rnnE] at h
      | .rp :: r => simp [rnnE] at h
    · intro toks c t rest h
      match toks with
      | [] => simp [rnnR] at h
      | .o c1 :: r =>
        rw [rnnR] at h
        split at h
        · exact absurd h (by simp)
        · rename_i t1 r1 h1
          simp at h
          obtain ⟨⟨rfl, rfl⟩, rfl⟩ := h
          exact ihE _ _ _ h1
      | .n v :: r => simp [rnnR] at h
      | .lp :: r => simp [rnnR] at h
      | .rp :: r => simp [rnnR] at h

/-! ## Tokenizer lemmas for words without structural characters -/

/-- Every delimiter of the Scheme tokenizer is C whitespace. -/
theorem delim_isSpace (c : Char) : isDelim c = true → cIsSpace c = true := by
  simp only [isDelim, cIsSpace, decide_eq_true_eq]
  tauto

/-- Every single-character token of the Scheme tokenizer is in the C
lexer's `op_chars`. -/
theorem single_mem_op (c : Char) : isSingle c = true → c ∈ op_chars := by
  simp only [isSingle, op_chars, decide_eq_true_eq]
  rintro (rfl | rfl | rfl | rfl | rfl | rfl) <;> simp

/-- A run of characters containing no delimiter and no
single-character token is returned whole, as one word, by
`string-tokenize`. -/
theorem splitWords_plain : ∀ (cs acc : List Char),
    (∀ c ∈ cs, ¬isDelim c ∧ ¬isSingle c) →
    splitWords cs acc =
      if (acc.reverse ++ cs).isEmpty then [] else [acc.reverse ++ cs] := by
  intro cs
  induction cs with
  | nil => intro acc _; simp [splitWords]
  | cons c cs ih =>
    intro acc h
    have hc := h c (by simp)
    rw [splitWords]
    simp only [hc.1, hc.2, if_false, Bool.false_eq_true]
    rw [ih (c :: acc) (fun d hd => h d (by simp [hd]))]
    have hne : acc.reverse ++ c :: cs ≠ [] := by simp
    have hne2 : (c :: acc).reverse ++ cs ≠ [] := by simp
    simp [List.isEmpty_iff, hne, hne2]

/-- `lex-op` rejects every word whose characters avoid `op_chars`. -/
theorem lexOp_plain : ∀ w : List Char, (∀ c ∈ w, c ∉ op_chars) →
    lexOp w = none := by
  intro w h
  match w with
  | [] => rfl
  | [c] =>
    have hc := h c (by simp)
    simp only [op_chars, List.mem_cons, not_or] at hc
    obtain ⟨h1, h2, h3, h4, h5, -⟩ := hc
    simp [lexOp, h2, h3, h4, h5]
  | c1 :: c2 :: cs => rfl

/-- `lex-paren` rejects every word whose characters avoid `op_chars`. -/
theorem lexParen_plain : ∀ w : List Char, (∀ c ∈ w, c ∉ op_chars) →
    lexParen w = none := by
  intro w h
  match w with
  | [] => rfl
  | [c] =>
    have hc := h c (by simp)
    simp only [op_chars, List.mem_cons, not_or] at hc
    obtain ⟨h1, h2, h3, h4, h5, h6, h7, h8, -⟩ := hc
    simp [lexParen, h7, h8]
  | c1 :: c2 :: cs => rfl

/-! ## Claim theorems -/

/-- `cLexRun` at positive fuel on the exhausted string. -/
theorem cLexRun_nil (n : Nat) : cLexRun (n + 1) [] = some [] := rfl

/-- **C1.** For every input string accepted by `parse-prefix`,
`parse-postfix` or `parse-infix-lpp`, the parse consumes the entire
token stream (the inner parse ends on the empty remainder, so the
"too many tokens" / ExtraTokens check passes) and the returned tree
has exactly as many `Value` leaves as the tokenizer produced Number
tokens for the input. -/
theorem claim1_full_consumption_leaf_count :
    (∀ s toks t, lexLine s = .ok toks → parsePreLine s = .ok t →
      preE (toks.length + 1) toks = .ok (t, []) ∧ t.leaves = countN toks) ∧
    (∀ s toks t, lexLine s = .ok toks → parsePostLine s = .ok t →
      t.leaves = countN toks) ∧
    (∀ s toks t, lexLine s = .ok toks → parseLppLine s = .ok t →
      ∃ t0, lppE (3 * toks.length + 3) toks.reverse = .ok (t0, []) ∧
        t = t0.invert ∧ t.leaves = countN toks) := by
  refine ⟨?_, ?_, ?_⟩
  · intro s toks t hlex hparse
    rw [parsePreLine, hlex] at hparse
    have hparse : parsePre toks = .ok t := hparse
    rw [parsePre] at hparse
    split at hparse
    · exact absurd hparse (by simp)
    · rename_i t1 rest h1
      split at hparse
      · rename_i hrest
        simp at hparse
        subst hparse
        rw [List.isEmpty_iff] at hrest
        subst hrest
        refine ⟨h1, ?_⟩
        have := preE_leaves _ _ _ _ h1
        simpa [countN] using this
      · exact absurd hparse (by simp)
  · intro s toks t hlex hparse
    rw [parsePostLine, hlex] at hparse
    have hparse : parsePost toks = .ok t := hparse
    have := postRun_leaves toks [] t hparse
    simpa [stackLeaves] using this
  · intro s toks t hlex hparse
    rw [parseLppLine, hlex] at hparse
    have hparse : parseLpp toks = .ok t := hparse
    rw [parseLpp] at hparse
    split at hparse
    · exact absurd hparse (by simp)
    · rename_i t1 rest h1
      split at hparse
      · rename_i hrest
        simp at hparse
        rw [List.isEmpty_iff] at hrest
        subst hrest
        refine ⟨t1, h1, hparse.symm, ?_⟩
        have := (lpp_leaves (3 * toks.length + 3)).1 _ _ _ h1
        rw [countN_reverse] at this
        subst hparse
        simpa [Tree.invert_leaves, countN] using this
      · exact absurd hparse (by simp)

/-- Witness for C1 at the accepted inputs `"+ 1 2"` (prefix),
`"1 2 +"` (postfix) and `"1*2"` (left-associative with parens). -/
theorem claim1_witness :
    (preE ([STok.o '+', STok.n 1, STok.n 2].length + 1)
        [STok.o '+', STok.n 1, STok.n 2] =
      .ok (.op '+' (.num 1) (.num 2), []) ∧
      (Tree.op '+' (.num 1) (.num 2)).leaves =
        countN [STok.o '+', STok.n 1, STok.n 2]) ∧
    (Tree.op '+' (.num 1) (.num 2)).leaves =
      countN [STok.n 1, STok.n 2, STok.o '+'] ∧
    (∃ t0, lppE (3 * [STok.n 1, STok.o '*', STok.n 2].length + 3)
        [STok.n 1, STok.o '*', STok.n 2].reverse = .ok (t0, []) ∧
      Tree.op '*' (.num 1) (.num 2) = t0.invert ∧
      (Tree.op '*' (.num 1) (.num 2)).leaves =
        countN [STok.n 1, STok.o '*', STok.n 2]) :=
  ⟨claim1_full_consumption_leaf_count.1 "+ 1 2" _ _ (by decide) (by decide),
   claim1_full_consumption_leaf_count.2.1 "1 2 +" _ _ (by decide) (by decide),
   claim1_full_consumption_leaf_count.2.2 "1*2" _ _ (by decide) (by decide)⟩

/-- **C4, counterexample.** The C tokenizer `lex_string` cited by the
claim does *not* raise an error for the word `"abc"`, which fails
numeric conversion: it emits it as a `TOK_VAL` (value/number-class)
token, and the precedence-climbing parser even accepts it as a leaf. -/
theorem claim4_counterexample :
    stringToNumber "abc".toList = none ∧
    cLexString "abc" = some [⟨.val, "abc"⟩] ∧
    climbParseLine "abc" = .ok (.value ⟨.val, "abc"⟩) := by
  refine ⟨by decide, by decide, by decide⟩

/-- **C4, amended.** For every nonempty word containing no whitespace
and no operator/parenthesis character that fails numeric conversion,
the *Scheme* tokenizer `lex-line` raises its tokenizer-level
InvalidToken error; the *C* tokenizer `lex_string` instead emits the
word unchanged as a single `TOK_VAL` token (it performs no numeric
validation at all). -/
theorem claim4_scheme_invalid_token : ∀ w : List Char, w ≠ [] →
    (∀ c ∈ w, ¬cIsSpace c ∧ c ∉ op_chars) →
    stringToNumber w = none →
    lexLine (String.mk w) = .error .lexInvalidToken ∧
    cLexString (String.mk w) = some [⟨.val, String.mk w⟩] := by
  intro w hne h hnum
  have hplain : ∀ c ∈ w, ¬isDelim c ∧ ¬isSingle c := by
    intro c hc
    obtain ⟨hs, ho⟩ := h c hc
    exact ⟨fun hd => hs (delim_isSpace c hd),
           fun hd => ho (single_mem_op c hd)⟩
  constructor
  · show lexWords (splitWords (String.mk w).toList []) = _
    have htl : (String.mk w).toList = w := rfl
    rw [htl, splitWords_plain w [] hplain]
    simp only [List.reverse_nil, List.nil_append, List.isEmpty_iff]
    rw [if_neg hne]
    show (match lexWord w with
      | Except.error e => Except.error e
      | Except.ok t =>
        match lexWords [] with
        | Except.error e => Except.error e
        | Except.ok ts => Except.ok (t :: ts)) = _
    have hword : lexWord w = .error .lexInvalidToken := by
      rw [lexWord]
      rw [show lexNum w = none by simp [lexNum, hnum]]
      rw [lexOp_plain w (fun c hc => (h c hc).2)]
      rw [lexParen_plain w (fun c hc => (h c hc).2)]
    rw [hword]
  · match w, hne with
    | c :: cs, _ =>
      obtain ⟨hcs, hco⟩ := h c (by simp)
      have hwc : ∀ d ∈ cs, cIsWordChar d = true := by
        intro d hd
        obtain ⟨h1, h2⟩ := h d (by simp [hd])
        simp [cIsWordChar]
        exact ⟨by simpa using h1, h2⟩
      show cLexRun ((c :: cs).length + 1) (c :: cs) = _
      rw [show (c :: cs).length + 1 = (cs.length + 1) + 1 by simp]
      rw [cLexRun]
      rw [show (c :: cs).dropWhile cIsSpace = c :: cs by
        simp [List.dropWhile_cons]
        intro habs
        exact absurd habs (by simpa using hcs)]
      dsimp only
      rw [if_neg hco]
      rw [show cs.dropWhile cIsWordChar = [] from
        (List.dropWhile_eq_nil_iff).2 hwc]
      rw [show cs.takeWhile cIsWordChar = cs from
        (List.takeWhile_eq_self_iff).2 hwc]
      rw [cLexRun_nil]
      rfl

/-- Witness for C4 at the word `"abc"`. -/
theorem claim4_witness :
    lexLine (String.mk ['a', 'b', 'c']) = .error .lexInvalidToken ∧
    cLexString (String.mk ['a', 'b', 'c']) =
      some [⟨.val, String.mk ['a', 'b', 'c']⟩] :=
  claim4_scheme_invalid_token ['a', 'b', 'c'] (by decide) (by decide) (by decide)

/-- **C5.** The infix right-associative no-precedence parser is
strictly right-associating for every operator chain, whatever the
operators: every tree it returns has a value leaf as the left child of
every operation node; in particular `"1 + 2 + 3"` parses to
`(+ 1 (+ 2 3))`. -/
theorem claim5_rnn_right_assoc :
    parseRnnLine "1 + 2 + 3" =
      .ok (.op '+' (.num 1) (.op '+' (.num 2) (.num 3))) ∧
    (∀ toks t, parseRnn toks = .ok t → RightChain t = true) := by
  constructor
  · decide
  · intro toks t h
    rw [parseRnn] at h
    split at h
    · exact absurd h (by simp)
    · rename_i t1 rest h1
      split at h
      · simp at h
        subst h
        exact (rnn_rightChain _).1 _ _ _ h1
      · exact absurd h (by simp)

/-- Witness for C5 at the token list of `"1 + 2"`. -/
theorem claim5_witness :
    RightChain (Tree.op '+' (.num 1) (.num 2)) = true :=
  claim5_rnn_right_assoc.2 [STok.n 1, STok.o '+', STok.n 2] _ (by decide)

/-- **C6.** In the postfix stack automaton, an operator token arriving
with fewer than two stacked operands fails with MissingArguments;
and once the input is exhausted, an empty stack fails with
MissingTokens, a single stacked node is returned as the result, and
two or more stacked nodes fail with ExtraTokens. -/
theorem claim6_post_stack_discipline :
    (∀ c rest stk, stk.length < 2 →
      postRun (.o c :: rest) stk = .error .missingArguments) ∧
    postRun [] [] = .error .missingTokens ∧
    (∀ t, postRun [] [t] = .ok t) ∧
    (∀ t1 t2 ts, postRun [] (t1 :: t2 :: ts) = .error .extraTokens) := by
  refine ⟨?_, rfl, fun t => rfl, fun t1 t2 ts => rfl⟩
  intro c rest stk hlen
  match stk with
  | [] => rfl
  | [a] => rfl
  | a :: b :: s => simp at hlen; omega

/-- Witness for C6: the four behaviours at concrete stacks. -/
theorem claim6_witness :
    postRun [STok.o '+'] [] = .error .missingArguments ∧
    postRun [] [] = .error .missingTokens ∧
    postRun [] [Tree.num 1] = .ok (.num 1) ∧
    postRun [] [Tree.num 1, Tree.num 2] = .error .extraTokens :=
  ⟨claim6_post_stack_discipline.1 '+' [] [] (by decide),
   claim6_post_stack_discipline.2.1,
   claim6_post_stack_discipline.2.2.1 (Tree.num 1),
   claim6_post_stack_discipline.2.2.2 (Tree.num 1) (Tree.num 2) []⟩

/-- **C2.** The left-associative-precedence-with-parens parser (which
parses the reversed stream and mirrors the tree) and the
precedence-climbing parser produce the same AST for
`"1*2 + 3*(4+5)"`, namely `((1*2)+(3*(4+5)))`: equal-precedence `+`
and `*` chains are grouped left-to-right, and reading the climbing
parser's tree back as a Scheme-side tree gives exactly the
`parse-infix-lpp` result. -/
theorem claim2_lpp_climb_agree :
    parseLppLine "1*2 + 3*(4+5)" = .ok stdTree ∧
    climbParseLine "1*2 + 3*(4+5)" = .ok stdCAst ∧
    castToTree stdCAst = some stdTree := by
  refine ⟨by decide, by decide, by decide⟩

/-- **C3, counterexample.** On `"(1 + 2"` the `parse-infix-lpp` parser
does *not* fail with an unbalanced-parenthesis error kind: parsing the
reversed stream `[2, +, 1, (]` completes the expression `2 + 1` and
leaves the `(` token unconsumed, so the parser raises "too many
tokens" (`extraTokens`), which is neither of the two
unbalanced-parenthesis kinds. -/
theorem claim3_counterexample :
    parseLppLine "(1 + 2" = .error .extraTokens ∧
    PErr.extraTokens ≠ PErr.missingOpenBracket ∧
    PErr.extraTokens ≠ PErr.invalidOpenBracket := by
  refine ⟨by decide, by decide, by decide⟩

/-- **C3, amended.** For the input `"(1 + 2"` the
left-associative-with-parens parser fails with the ExtraTokens error
kind ("too many tokens"): the unmatched open parenthesis is the last
token of the reversed stream, so it survives the complete parse of
`2 + 1` as a trailing token instead of being detected by the
parenthesis-matching branch of `F!`. -/
theorem claim3_lpp_extra_tokens :
    lexLine "(1 + 2" = .ok [.lp, .n 1, .o '+', .n 2] ∧
    parseLppLine "(1 + 2" = .error .extraTokens := by
  refine ⟨by decide, by decide⟩

/-- **C7.** The precedence-climbing parser treats `^` as
right-associative: `"1^2^3"` parses to `(1^(2^3))`; and in general,
whenever the lookahead of the `E` loop is a binary operator whose
table entry has precedence at least the current minimum, the loop
consumes it and recurses at minimum precedence `prec + 1` for a
left-associative entry and `prec` for a right-associative one,
combining into a binary node. -/
theorem claim7_climb_assoc :
    climbParseLine "1^2^3" =
      .ok (.binary ⟨.exponent, "^"⟩ (.value ⟨.val, "1"⟩)
        (.binary ⟨.exponent, "^"⟩ (.value ⟨.val, "2"⟩)
          (.value ⟨.val, "3"⟩))) ∧
    (∀ fuel min_prec left tok rest item,
      is_binary_op tok = true →
      prec_arr_find binary_prec_arr (tokSym tok) = some item →
      min_prec ≤ item.prec →
      climbLoop (fuel + 1) min_prec left (tok :: rest) =
        Except.bind
          (climbE fuel
            (if item.assoc = .aleft then item.prec + 1 else item.prec) rest)
          (fun p => climbLoop fuel min_prec (.binary tok left p.1) p.2)) := by
  constructor
  · decide
  · intro fuel min_prec left tok rest item hb hfind hle
    rw [climbLoop]
    have h1 : cNext (tok :: rest) = tok := rfl
    have h2 : cConsume (tok :: rest) = rest := rfl
    rw [h1, h2, if_pos hb, hfind]
    dsimp only
    rw [if_pos (show item.prec ≥ min_prec from hle)]
    cases climbE fuel
        (if item.assoc = .aleft then item.prec + 1 else item.prec) rest with
    | error e => rfl
    | ok p => cases p; rfl

/-- Witness for C7: one step of the `E` loop at minimum precedence 0
on the token stream of `"^2"` with accumulated left operand `1`. -/
theorem claim7_witness :
    climbLoop 4 0 (.value ⟨.val, "1"⟩)
        [⟨.exponent, "^"⟩, ⟨.val, "2"⟩] =
      Except.bind (climbE 3 3 [⟨CTokType.val, "2"⟩])
        (fun p => climbLoop 3 0
          (.binary ⟨.exponent, "^"⟩ (.value ⟨.val, "1"⟩) p.1) p.2) :=
  claim7_climb_assoc.2 3 0 (.value ⟨.val, "1"⟩) ⟨.exponent, "^"⟩
    [⟨.val, "2"⟩] ⟨'^', 3, .aright⟩ (by decide) (by decide) (by decide)

/-- **C8.** In the right-associative-with-precedence variant, `*`/`/`
bind tighter than `+`/`-` while chains inside each class
right-associate: `"1-2-3"` groups as `1-(2-3)`, `"1*2*3"` as
`1*(2*3)` and `"1+2*3"` as `1+(2*3)`, in the Scheme `parse-infix-rpn`
and in the C `infix_recur_desc.c` parser alike; and in general a
consumed `+`/`-` takes a full `EXPR` as its right operand and a
consumed `*`/`/` a full `TERM`. -/
theorem claim8_rpn_grouping :
    parseRpnLine "1-2-3" =
      .ok (.op '-' (.num 1) (.op '-' (.num 2) (.num 3))) ∧
    parseRpnLine "1*2*3" =
      .ok (.op '*' (.num 1) (.op '*' (.num 2) (.num 3))) ∧
    parseRpnLine "1+2*3" =
      .ok (.op '+' (.num 1) (.op '*' (.num 2) (.num 3))) ∧
    Except.map rdPrint (rdParseLine "1-2-3") = .ok " (- 1 (- 2 3))" ∧
    Except.map rdPrint (rdParseLine "1*2*3") = .ok " (* 1 (* 2 3))" ∧
    Except.map rdPrint (rdParseLine "1+2*3") = .ok " (+ 1 (* 2 3))" ∧
    (∀ fuel toks t c r2, rpnTERM fuel toks = .ok (t, .o c :: r2) →
      c = '+' ∨ c = '-' →
      rpnEXPR (fuel + 1) toks =
        Except.map (fun p => (Tree.op c t p.1, p.2)) (rpnEXPR fuel r2)) ∧
    (∀ fuel toks f c r2, rpnFACT toks = .ok (f, .o c :: r2) →
      c = '*' ∨ c = '/' →
      rpnTERM (fuel + 1) toks =
        Except.map (fun p => (Tree.op c f p.1, p.2)) (rpnTERM fuel r2)) := by
  refine ⟨by decide, by decide, by decide, by decide, by decide, by decide,
    ?_, ?_⟩
  · intro fuel toks t c r2 hterm hc
    match toks with
    | [] =>
      exfalso
      match fuel with
      | 0 => simp [rpnTERM] at hterm
      | f + 1 => simp [rpnTERM] at hterm
    | x :: xs =>
      rw [rpnEXPR]
      · rw [hterm]
        dsimp only
        rw [if_pos hc]
        cases rpnEXPR fuel r2 with
        | error e => rfl
        | ok p => cases p; rfl
      · simp
  · intro fuel toks f c r2 hfact hc
    match toks with
    | [] => simp [rpnFACT] at hfact
    | x :: xs =>
      rw [rpnTERM]
      · rw [hfact]
        dsimp only
        rw [if_pos hc]
        cases rpnTERM fuel r2 with
        | error e => rfl
        | ok p => cases p; rfl
      · simp

/-- Witness for C8: one step of `EXPR!` on the tokens of `"1 + 2"` and
one step of `TERM!` on the tokens of `"1 * 2"`. -/
theorem claim8_witness :
    rpnEXPR 5 [STok.n 1, STok.o '+', STok.n 2] =
      Except.map (fun p => (Tree.op '+' (.num 1) p.1, p.2))
        (rpnEXPR 4 [STok.n 2]) ∧
    rpnTERM 5 [STok.n 1, STok.o '*', STok.n 2] =
      Except.map (fun p => (Tree.op '*' (.num 1) p.1, p.2))
        (rpnTERM 4 [STok.n 2]) :=
  ⟨claim8_rpn_grouping.2.2.2.2.2.2.1 4 [STok.n 1, STok.o '+', STok.n 2]
      (.num 1) '+' [STok.n 2] (by decide) (by decide),
   claim8_rpn_grouping.2.2.2.2.2.2.2 4 [STok.n 1, STok.o '*', STok.n 2]
      (.num 1) '*' [STok.n 2] (by decide) (by decide)⟩

/-- **C9.** Redundant parenthesization does not change the resulting
tree: parsing `"1*2 + 3*(4+5)"` and `"(1*2) + (3*(4+5))"` through the
recursive-descent parser of `infix_recur_desc.c` yields ASTs with the
identical printed form, and likewise through the precedence-climbing
parser of `infix_prec_climb.c`. -/
theorem claim9_redundant_parens :
    Except.map rdPrint (rdParseLine "1*2 + 3*(4+5)") =
      .ok " (+ (* 1 2) (* 3 (+ 4 5)))" ∧
    Except.map rdPrint (rdParseLine "(1*2) + (3*(4+5))") =
      .ok " (+ (* 1 2) (* 3 (+ 4 5)))" ∧
    Except.map cAstPrint (climbParseLine "1*2 + 3*(4+5)") =
      .ok " (+ (* 1 2) (* 3 (+ 4 5)))" ∧
    Except.map cAstPrint (climbParseLine "(1*2) + (3*(4+5))") =
      .ok " (+ (* 1 2) (* 3 (+ 4 5)))" := by
  refine ⟨by decide, by decide, by decide, by decide⟩

/-- **C10.** In the precedence-climbing tables unary minus has
precedence 4 and `^` precedence 3 (right-associative), so a unary
minus on the base of an exponentiation binds tighter than `^`:
`"-2^3"` parses to `(^ (- 2) 3)`, not `(- (^ 2 3))`. -/
theorem claim10_unary_minus_over_exponent :
    prec_arr_find unary_prec_arr '-' = some ⟨'-', 4, .anull⟩ ∧
    prec_arr_find binary_prec_arr '^' = some ⟨'^', 3, .aright⟩ ∧
    4 > 3 ∧
    climbParseLine "-2^3" =
      .ok (.binary ⟨.exponent, "^"⟩
        (.unary ⟨.minus, "-"⟩ (.value ⟨.val, "2"⟩))
        (.value ⟨.val, "3"⟩)) := by
  refine ⟨by decide, by decide, by decide, by decide⟩

end XprFix
